import Mathlib

/-!
Verification of the restaurant-recommendation pipeline.

Shallow embedding of the core pipeline of the repository:
preference validation/normalization (phase-3 `preference_processor.py`),
LLM response parsing with retry/fallback (phase-4 `llm_service.py`),
and orchestration with enrichment (phase-5 `recommendation_engine.py`).

Python strings handled by the preference processor are modelled as
`List Char`; `str.lower()` is modelled for ASCII letters (`chLower`),
`str.strip()` strips the ASCII whitespace characters Python strips.
Python floats are modelled as rationals (`ℚ`).
-/

namespace RestRec

/-- Python runtime values that can appear in a raw preference map.
Models the dynamically-typed inputs `validate_and_normalize` receives. -/
inductive PyVal where
  | str (s : List Char)
  | int (n : ℤ)
  | float (q : ℚ)
  | bool (b : Bool)
  | null
deriving DecidableEq, Repr

/-- ASCII model of Python `str.lower()` on one character:
uppercase letters map to lowercase, everything else is unchanged
(core's `Char.toLower` implements exactly this). -/
def chLower (c : Char) : Char := c.toLower

/-- The whitespace characters stripped by Python `str.strip()`
(space, tab, newline, carriage return, vertical tab, form feed),
recognized by code point. -/
def chIsSpace (c : Char) : Bool :=
  c.toNat = 32 || c.toNat = 9 || c.toNat = 10 || c.toNat = 13 ||
    c.toNat = 11 || c.toNat = 12

/-- Model of Python `str.lower()`. -/
def pyLower (s : List Char) : List Char := s.map chLower

/-- Model of Python `str.strip()`: drop whitespace from both ends. -/
def pyStrip (s : List Char) : List Char :=
  List.dropWhile chIsSpace ((List.dropWhile chIsSpace s.reverse).reverse)

/-- Decimal digit test used by the numeric-literal parsers. -/
def chIsDigit (c : Char) : Bool := '0' ≤ c && c ≤ '9'

/-- Value of a digit string, most significant digit first. -/
def digitsToNat (ds : List Char) : ℕ :=
  ds.foldl (fun a c => a * 10 + (c.toNat - 48)) 0

/-- Model of Python `float(str)` restricted to plain decimal literals
(optional sign, digits, optional fractional part); Python additionally
accepts exponents and inf/nan spellings, which this development never
needs.  Surrounding whitespace is stripped as Python does. -/
def parseFloatLit (s : List Char) : Option ℚ :=
  let t := pyStrip s
  let signRest : ℚ × List Char :=
    match t with
    | '+' :: r => (1, r)
    | '-' :: r => (-1, r)
    | r => (1, r)
  let sign := signRest.1
  let rest := signRest.2
  let intPart := rest.takeWhile chIsDigit
  let rest2 := rest.dropWhile chIsDigit
  match rest2 with
  | [] =>
      if intPart = [] then Option.none
      else some (sign * (digitsToNat intPart : ℚ))
  | '.' :: frac =>
      if frac.all chIsDigit && (intPart ≠ [] || frac ≠ []) then
        some (sign * ((digitsToNat intPart : ℚ) +
          (digitsToNat frac : ℚ) / (10 ^ frac.length)))
      else Option.none
  | _ => Option.none

/-- Model of Python `int(str)` restricted to decimal integer literals
(optional sign, digits); `int("4.5")` fails in Python and here. -/
def parseIntLit (s : List Char) : Option ℤ :=
  let t := pyStrip s
  let signRest : ℤ × List Char :=
    match t with
    | '+' :: r => (1, r)
    | '-' :: r => (-1, r)
    | r => (1, r)
  if signRest.2 ≠ [] && signRest.2.all chIsDigit then
    some (signRest.1 * (digitsToNat signRest.2 : ℤ))
  else Option.none

/-- Truncation toward zero, as Python `int(float)` does. -/
def ratTrunc (q : ℚ) : ℤ := if 0 ≤ q then ⌊q⌋ else -⌊-q⌋

/-- Model of Python `float(x)`: succeeds on numbers, bools and numeric
strings, fails (raises) on `None` and non-numeric strings. -/
def pyFloat (v : PyVal) : Option ℚ :=
  match v with
  | .float q => some q
  | .int n => some (n : ℚ)
  | .bool b => some (if b then 1 else 0)
  | .str s => parseFloatLit s
  | .null => Option.none

/-- Model of Python `int(x)`: succeeds on ints, bools, floats (truncating)
and integer strings, fails on `None` and other strings. -/
def pyInt (v : PyVal) : Option ℤ :=
  match v with
  | .int n => some n
  | .float q => some (ratTrunc q)
  | .bool b => some (if b then 1 else 0)
  | .str s => parseIntLit s
  | .null => Option.none

/-- Field-level error messages produced by `validate_and_normalize`,
abstracted from the f-strings of `preference_processor.py`. -/
inductive ErrMsg where
  | cuisineNotString
  | cuisineEmpty
  | locationNotString
  | locationEmpty
  | ratingNotNumber
  | ratingOutOfRange (q : ℚ)
  | priceNotNumber
  | priceTooLow (q : ℚ)
  | priceTooHigh (q : ℚ)
  | limitNotInt
  | limitOutOfRange (n : ℤ)
deriving DecidableEq, Repr

/-- Warnings produced by the processor (only the non-standard-cuisine one). -/
inductive Warn where
  | nonStandardCuisine (s : List Char)
deriving DecidableEq, Repr

/-- The `VALID_CUISINES` set of `preference_processor.py`. -/
def validCuisines : List (List Char) :=
  ["italian".data, "chinese".data, "mexican".data, "indian".data,
   "japanese".data, "thai".data, "french".data, "american".data,
   "mediterranean".data, "korean".data, "vietnamese".data, "greek".data,
   "spanish".data, "middle eastern".data, "brazilian".data, "caribbean".data]

/-- Result of one per-field validator (`_validate_cuisine` and friends):
either a normalized value with an optional warning, or an error. -/
inductive FieldResult (α : Type) where
  | valid (norm : α) (warning : Option Warn)
  | invalid (err : ErrMsg)
deriving DecidableEq, Repr

/-- Model of `PreferenceProcessor._validate_cuisine`. -/
def validateCuisine (v : PyVal) : FieldResult (List Char) :=
  match v with
  | .str s =>
      let normalized := pyLower (pyStrip s)
      if normalized = [] then .invalid .cuisineEmpty
      else if validCuisines.contains normalized then
        .valid normalized Option.none
      else
        .valid normalized (some (.nonStandardCuisine normalized))
  | _ => .invalid .cuisineNotString

/-- Model of `PreferenceProcessor._validate_location`. -/
def validateLocation (v : PyVal) : FieldResult (List Char) :=
  match v with
  | .str s =>
      let normalized := pyLower (pyStrip s)
      if normalized = [] then .invalid .locationEmpty
      else .valid normalized Option.none
  | _ => .invalid .locationNotString

/-- Model of `PreferenceProcessor._validate_rating` (range [0, 5]). -/
def validateRating (v : PyVal) : FieldResult ℚ :=
  match pyFloat v with
  | Option.none => .invalid .ratingNotNumber
  | some q =>
      if q < 0 ∨ 5 < q then .invalid (.ratingOutOfRange q)
      else .valid q Option.none

/-- Model of `PreferenceProcessor._validate_price` (range [0, 10000]). -/
def validatePrice (v : PyVal) : FieldResult ℚ :=
  match pyFloat v with
  | Option.none => .invalid .priceNotNumber
  | some q =>
      if q < 0 then .invalid (.priceTooLow q)
      else if 10000 < q then .invalid (.priceTooHigh q)
      else .valid q Option.none

/-- Model of `PreferenceProcessor._validate_limit` (range [1, 100]). -/
def validateLimit (v : PyVal) : FieldResult ℤ :=
  match pyInt v with
  | Option.none => .invalid .limitNotInt
  | some n =>
      if n < 1 ∨ 100 < n then .invalid (.limitOutOfRange n)
      else .valid n Option.none

/-- A raw preference map: each recognized key either absent (`none`) or
bound to a Python value.  Unknown keys are ignored by the source and
therefore not modelled. -/
structure RawPrefs where
  cuisine : Option PyVal := Option.none
  location : Option PyVal := Option.none
  min_rating : Option PyVal := Option.none
  max_price : Option PyVal := Option.none
  limit : Option PyVal := Option.none
deriving DecidableEq, Repr

/-- Models the guard `'k' in preferences and preferences['k'] is not None`:
an explicit `None` value is treated like an absent key. -/
def presentVal (o : Option PyVal) : Option PyVal :=
  match o with
  | some .null => Option.none
  | o => o

/-- The normalized preference set built by `validate_and_normalize`:
a key is present exactly when the corresponding field validated
(plus the defaulted `limit`). -/
@[ext]
structure NormPrefs where
  cuisine : Option (List Char) := Option.none
  location : Option (List Char) := Option.none
  min_rating : Option ℚ := Option.none
  max_price : Option ℚ := Option.none
  limit : Option ℤ := Option.none
deriving DecidableEq, Repr

/-- Mirror of the `ValidationResult` dataclass. -/
structure ValidationResult where
  is_valid : Bool
  errors : List ErrMsg
  warnings : List Warn
  normalized_preferences : NormPrefs
deriving DecidableEq, Repr

/-- Error contributed by one (optional) field check. -/
def fieldErr {α : Type} : Option (FieldResult α) → List ErrMsg
  | some (.invalid e) => [e]
  | _ => []

/-- Warning contributed by one (optional) field check. -/
def fieldWarn {α : Type} : Option (FieldResult α) → List Warn
  | some (.valid _ (some w)) => [w]
  | _ => []

/-- Normalized value contributed by one (optional) field check. -/
def fieldNorm {α : Type} : Option (FieldResult α) → Option α
  | some (.valid a _) => some a
  | _ => Option.none

/-- Whether one (optional) field check left `is_valid` untouched. -/
def fieldOk {α : Type} : Option (FieldResult α) → Bool
  | some (.invalid _) => false
  | _ => true

/-- Model of `PreferenceProcessor.validate_and_normalize`: each of the five
fields is checked independently (so several errors can accumulate);
`is_valid` is flipped to false by every recorded error; an absent or
`None` `limit` is normalized to the default 10. -/
def validateAndNormalize (p : RawPrefs) : ValidationResult :=
  let c := (presentVal p.cuisine).map validateCuisine
  let l := (presentVal p.location).map validateLocation
  let r := (presentVal p.min_rating).map validateRating
  let pr := (presentVal p.max_price).map validatePrice
  let li :=
    match presentVal p.limit with
    | some v => some (validateLimit v)
    | Option.none => some (.valid (10 : ℤ) Option.none)
  { is_valid := fieldOk c && fieldOk l && fieldOk r && fieldOk pr && fieldOk li
    errors := fieldErr c ++ fieldErr l ++ fieldErr r ++ fieldErr pr ++ fieldErr li
    warnings := fieldWarn c ++ fieldWarn l ++ fieldWarn r ++ fieldWarn pr ++ fieldWarn li
    normalized_preferences :=
      { cuisine := fieldNorm c
        location := fieldNorm l
        min_rating := fieldNorm r
        max_price := fieldNorm pr
        limit := fieldNorm li } }

/-- Number of fields of the raw map whose check failed. -/
def invalidFieldCount (p : RawPrefs) : ℕ :=
  (if fieldOk ((presentVal p.cuisine).map validateCuisine) then 0 else 1) +
  (if fieldOk ((presentVal p.location).map validateLocation) then 0 else 1) +
  (if fieldOk ((presentVal p.min_rating).map validateRating) then 0 else 1) +
  (if fieldOk ((presentVal p.max_price).map validatePrice) then 0 else 1) +
  (if fieldOk ((match presentVal p.limit with
    | some v => some (validateLimit v)
    | Option.none => some (.valid (10 : ℤ) Option.none))) then 0 else 1)

/-- Re-inject a normalized preference set as a raw map, for re-validation. -/
def toRaw (n : NormPrefs) : RawPrefs :=
  { cuisine := n.cuisine.map .str
    location := n.location.map .str
    min_rating := n.min_rating.map .float
    max_price := n.max_price.map .float
    limit := n.limit.map .int }

/-- Model of `PreferenceProcessor.get_filter_summary`: copies every key
present in the normalized map into the summary. -/
def getFilterSummary (n : NormPrefs) : NormPrefs :=
  { cuisine := n.cuisine
    location := n.location
    min_rating := n.min_rating
    max_price := n.max_price
    limit := n.limit }

/-! ### Phase 4: LLM service (`llm_service.py`) -/

/-- A restaurant record as stored in the database and handed to the
engine: every field present, `rating` and `price` modelled as rationals. -/
structure Restaurant where
  name : String
  cuisine : String
  location : String
  rating : ℚ
  price : ℚ
deriving DecidableEq, Repr

/-- A recommendation item (`{name, explanation}`) as produced by the
LLM parser or the fallback rankers. -/
structure Rec where
  name : String
  explanation : String
deriving DecidableEq, Repr

/-- A decoded JSON value, the result of `json.loads` on the LLM reply.
Number rendering aside, this is what `_parse_response` walks over. -/
inductive JVal where
  | str (s : String)
  | num (q : ℚ)
  | bool (b : Bool)
  | null
  | arr (items : List JVal)
  | obj (fields : List (String × JVal))

/-- Kernel-computable model of Python `str.lower()` on engine-side
strings (`(strLower String)` itself recurses by well-founded measure and
does not reduce definitionally, so concrete runs use this list-based
equivalent). -/
def strLower (s : String) : String := String.mk (s.data.map Char.toLower)

/-- Model of Python `str(x)` on decoded JSON values.  Strings are the
identity; numbers are rendered via `toString` (an approximation of
Python's numeric repr, irrelevant to the claims, which use string
names); containers get a fixed placeholder for their repr. -/
def pyStrOfJVal (v : JVal) : String :=
  match v with
  | .str s => s
  | .num q => toString q
  | .bool true => "True"
  | .bool false => "False"
  | .null => "None"
  | .arr _ => "[...]"
  | .obj _ => "\x7b...\x7d"

/-- Dictionary lookup on a decoded JSON object (`json.loads` yields
dicts with unique keys, so first match is the match). -/
def jGet (fields : List (String × JVal)) (k : String) : Option JVal :=
  (fields.find? (fun kv => kv.fst = k)).map Prod.snd

/-- Model of iterating `for rec in recommendations` over a decoded value:
lists yield their items, strings their one-character substrings, dicts
their keys; numbers, bools and null are not iterable (TypeError). -/
def toItems (v : JVal) : Option (List JVal) :=
  match v with
  | .arr l => some l
  | .str s => some (s.data.map (fun c => JVal.str (String.mk [c])))
  | .obj fs => some (fs.map (fun kv => JVal.str kv.fst))
  | _ => Option.none

/-- The structural part of `LLMService._parse_response`: a bare list is
taken as-is; a dict must have a `recommendations` key whose value is
iterable; anything else raises (modelled as `none`). -/
def extractRecs (data : JVal) : Option (List JVal) :=
  match data with
  | .arr l => some l
  | .obj fs =>
      match jGet fs "recommendations" with
      | some v => toItems v
      | Option.none => Option.none
  | _ => Option.none

/-- The item loop of `_parse_response`: keep dict items that carry both
the `name` and `explanation` keys, stringify the values, and drop an
item whose lowercased name was already seen. -/
def parseLoop (seen : List String) : List JVal → List Rec
  | [] => []
  | item :: rest =>
    match item with
    | .obj fs =>
      match jGet fs "name", jGet fs "explanation" with
      | some nv, some ev =>
          let nameLower := (strLower (pyStrOfJVal nv))
          if nameLower ∈ seen then parseLoop seen rest
          else
            { name := pyStrOfJVal nv, explanation := pyStrOfJVal ev } ::
              parseLoop (nameLower :: seen) rest
      | _, _ => parseLoop seen rest
    | _ => parseLoop seen rest

/-- Model of `LLMService._parse_response` from the decoded JSON value
onward (empty content and JSON-decode failures happen before decoding
and are covered by the attempt oracle of `generateRecommendations`).
Note the item loop itself never raises: a response with zero valid
items is returned as `.ok []`. -/
def parseResponse (data : JVal) : Except String (List Rec) :=
  match extractRecs data with
  | some items => .ok (parseLoop [] items)
  | Option.none => .error "Failed to parse LLM response"

/-- The retry loop of `LLMService.generate_recommendations`.
`attempts i` is the outcome of the i-th LLM call: `none` when the call
itself failed (transport error, empty content, JSON-decode error),
`some data` when it produced a decoded JSON value.  On the last
allowed attempt a failure raises `LLMServiceError` (`.error`); running
out of the loop without an attempt (only possible with zero retries)
returns `[]` as the final `return []` of the source does. -/
def genRecsFrom (attempts : ℕ → Option JVal) (attempt : ℕ) : ℕ → Except String (List Rec)
  | 0 => .ok []
  | fuel + 1 =>
    let outcome :=
      match attempts attempt with
      | some data => parseResponse data
      | Option.none => Except.error "LLM call failed"
    match outcome with
    | .ok recs => .ok recs
    | .error e =>
      if fuel = 0 then .error e
      else genRecsFrom attempts (attempt + 1) fuel

/-- Model of `LLMService.generate_recommendations`: empty candidate list
short-circuits to `[]`; otherwise up to `maxRetries` attempts are made
and exhausting them raises `LLMServiceError`. -/
def generateRecommendations (restaurants : List Restaurant) (maxRetries : ℕ)
    (attempts : ℕ → Option JVal) : Except String (List Rec) :=
  if restaurants.isEmpty then .ok []
  else genRecsFrom attempts 0 maxRetries

/-- Decides that one attempt fails: either the call raised, or the
decoded value does not parse. -/
def attemptFails (o : Option JVal) : Bool :=
  match o with
  | Option.none => true
  | some data =>
    match parseResponse data with
    | .error _ => true
    | .ok _ => false

/-! ### Fallback rankers -/

/-- Stable insertion of `a` into a list sorted by `key` descending:
`a` goes before the first element whose key is not greater, so elements
equal under `key` keep their original relative order, as Python's
stable `sorted(..., reverse=True)` does. -/
def insertByDesc {α : Type} {κ : Type} [LinearOrder κ] (key : α → κ) (a : α) :
    List α → List α
  | [] => [a]
  | b :: t => if key a < key b then b :: insertByDesc key a t else a :: b :: t

/-- Stable sort by `key` descending, the model of Python
`sorted(xs, key=key, reverse=True)`. -/
def sortByDesc {α : Type} {κ : Type} [LinearOrder κ] (key : α → κ) :
    List α → List α
  | [] => []
  | a :: t => insertByDesc key a (sortByDesc key t)

/-- The explanation string both fallback rankers synthesize from the
rating value. -/
def fallbackExplanation (q : ℚ) : String :=
  "Highly rated restaurant with " ++ toString q ++ "/5.0 stars"

/-- The recommendation dict both fallback rankers build for a chosen
restaurant. -/
def mkFallbackRec (r : Restaurant) : Rec :=
  { name := r.name, explanation := fallbackExplanation r.rating }

/-- The selection loop of `LLMService.generate_fallback_recommendations`:
walk the rating-sorted candidates, skip duplicates by
(name lowercased, location lowercased), append otherwise, and stop as
soon as `limit` entries have been collected (the length test runs after
the append, exactly as in the source). -/
def llmFallbackLoop (limit : ℤ) (seen : List (String × String)) (count : ℕ) :
    List Restaurant → List Restaurant
  | [] => []
  | r :: rest =>
    let key := ((strLower r.name), (strLower r.location))
    if key ∈ seen then llmFallbackLoop limit seen count rest
    else if limit ≤ (count : ℤ) + 1 then [r]
    else r :: llmFallbackLoop limit (key :: seen) (count + 1) rest

/-- The restaurants chosen by `LLMService.generate_fallback_recommendations`,
in order: candidates sorted by rating descending only (stable, so equal
ratings keep candidate order — there is no price tiebreak), then
deduplicated/truncated by `llmFallbackLoop`. -/
def llmFallbackChosen (restaurants : List Restaurant) (limit : ℤ) : List Restaurant :=
  if restaurants.isEmpty then []
  else llmFallbackLoop limit [] 0 (sortByDesc (fun r => r.rating) restaurants)

/-- Model of `LLMService.generate_fallback_recommendations`. -/
def generateFallbackRecommendations (restaurants : List Restaurant) (limit : ℤ) :
    List Rec :=
  (llmFallbackChosen restaurants limit).map mkFallbackRec

/-- Model of `RecommendationEngine._generate_fallback_recommendations`
(the engine's own fallback, used only when no LLM service is
configured): sort by the pair (rating, -price) descending — i.e. rating
descending with ties broken by price ascending — take the first `limit`
entries, no deduplication. -/
def engineFallback (restaurants : List Restaurant) (limit : ℤ) : List Rec :=
  (((sortByDesc (fun r => toLex (r.rating, -r.price)) restaurants).take limit.toNat).map
    mkFallbackRec)

/-- Identity-based deduplication keeping the first occurrence of each
(name lowercased, location lowercased) pair, as
`RecommendationEngine._filter_restaurants` performs on the database
results. -/
def dedupLoop (seen : List (String × String)) : List Restaurant → List Restaurant
  | [] => []
  | r :: rest =>
    let key := ((strLower r.name), (strLower r.location))
    if key ∈ seen then dedupLoop seen rest
    else r :: dedupLoop (key :: seen) rest

/-- Deduplicate a restaurant list by (name, location) identity. -/
def dedupRestaurants (l : List Restaurant) : List Restaurant := dedupLoop [] l

/-- Modelled from the spec (for comparison with the code's fallback):
"sort candidates by rating descending, ties broken by price ascending;
take the first `limit`; synthesize an explanation string from the
rating value; deduplicate by (name, location)". -/
def specFallback (restaurants : List Restaurant) (limit : ℤ) : List Rec :=
  (dedupRestaurants ((sortByDesc (fun r => toLex (r.rating, -r.price)) restaurants).take
    limit.toNat)).map mkFallbackRec

/-! ### Phase 5: enrichment and orchestration (`recommendation_engine.py`) -/

/-- An enriched recommendation: either the full restaurant record plus
the explanation, or the degraded form carrying only name, explanation
and the fixed `note` string. -/
inductive EnrichedRec where
  | full (r : Restaurant) (explanation : String)
  | degraded (name explanation note : String)
deriving DecidableEq, Repr

/-- The displayed name of an enriched entry. -/
def enrichedName (e : EnrichedRec) : String :=
  match e with
  | .full r _ => r.name
  | .degraded n _ _ => n

/-- The (name lowercased, location lowercased) identity of an enriched
entry; the degraded form has no location and contributes the empty
string. -/
def enrichedIdent (e : EnrichedRec) : String × String :=
  match e with
  | .full r _ => ((strLower r.name), (strLower r.location))
  | .degraded n _ _ => ((strLower n), "")

/-- Model of the dict comprehension
`{r['name'].lower(): r for r in restaurants}` followed by `.get`:
a later candidate with the same lowercased name overwrites an earlier
one, so the lookup returns the last match. -/
def lookupByName (cands : List Restaurant) (k : String) : Option Restaurant :=
  cands.foldl (fun acc r => if (strLower r.name) = k then some r else acc) Option.none

/-- The loop of `RecommendationEngine._enrich_recommendations`.
`seenNames` holds the bare lowercased names added on the degraded path;
`seenKeys` holds the (name, location) pairs added on the full path —
the Python code stores both shapes in one set, which can never confuse
them since a string never equals a tuple. -/
def enrichLoop (cands : List Restaurant) (seenNames : List String)
    (seenKeys : List (String × String)) : List Rec → List EnrichedRec
  | [] => []
  | item :: rest =>
    let nameLower := (strLower item.name)
    if nameLower ∈ seenNames then enrichLoop cands seenNames seenKeys rest
    else
      match lookupByName cands nameLower with
      | some r =>
        let key := (nameLower, (strLower r.location))
        if key ∈ seenKeys then enrichLoop cands seenNames seenKeys rest
        else .full r item.explanation :: enrichLoop cands seenNames (key :: seenKeys) rest
      | Option.none =>
        if nameLower ∈ seenNames then enrichLoop cands seenNames seenKeys rest
        else
          .degraded item.name item.explanation "Full details not available" ::
            enrichLoop cands (nameLower :: seenNames) seenKeys rest

/-- Model of `RecommendationEngine._enrich_recommendations`. -/
def enrich (recommendations : List Rec) (restaurants : List Restaurant) :
    List EnrichedRec :=
  enrichLoop restaurants [] [] recommendations

/-- The result envelope of `RecommendationEngine.get_recommendations`,
one constructor per `return` statement of the source: validation
failure, the no-candidates success, and the main success. -/
inductive EngineResult where
  | invalidPrefs (errors : List ErrMsg) (warnings : List Warn)
  | okEmpty (filters : NormPrefs) (warnings : List Warn)
  | ok (recommendations : List EnrichedRec) (total_found returned : ℕ)
      (filters : NormPrefs) (warnings : List Warn)
deriving DecidableEq, Repr

/-- Model of `RecommendationEngine.get_recommendations`.
`dbResults` stands for what `database_service.filter_restaurants`
returned (the store is an external collaborator); `hasLLM` selects the
LLM path (with `attempts` as the oracle of successive call outcomes and
`maxRetries` from the phase-4 configuration) or the engine's own
fallback.  On the LLM path an `LLMServiceError` is caught and replaced
by `LLMService.generate_fallback_recommendations`. -/
def getRecommendations (prefs : RawPrefs) (dbResults : List Restaurant)
    (hasLLM : Bool) (maxRetries : ℕ) (attempts : ℕ → Option JVal) : EngineResult :=
  let vr := validateAndNormalize prefs
  if vr.is_valid = false then
    .invalidPrefs vr.errors vr.warnings
  else
    let n := vr.normalized_preferences
    let filtered := dedupRestaurants dbResults
    if filtered.isEmpty then
      .okEmpty (getFilterSummary n) vr.warnings
    else
      let limit : ℤ := n.limit.getD 10
      let recommendations :=
        if hasLLM then
          match generateRecommendations filtered maxRetries attempts with
          | .ok rs => rs
          | .error _ => generateFallbackRecommendations filtered limit
        else
          engineFallback filtered limit
      let enriched := enrich recommendations filtered
      .ok enriched filtered.length enriched.length (getFilterSummary n) vr.warnings

/-- The recommendation list of a main-success result, if any. -/
def okRecs (res : EngineResult) : Option (List EnrichedRec) :=
  match res with
  | .ok recommendations _ _ _ _ => some recommendations
  | _ => Option.none

/-- The `filters_applied` map of a main-success result, if any. -/
def okFilters (res : EngineResult) : Option NormPrefs :=
  match res with
  | .ok _ _ _ filters _ => some filters
  | _ => Option.none

/-- Whether a decoded item is a dict carrying both required keys and
bearing the given lowercased name — the predicate located by the
first-occurrence characterization of the parser's deduplication. -/
def validItemWithName (k : String) (j : JVal) : Bool :=
  match j with
  | .obj fs =>
    match jGet fs "name", jGet fs "explanation" with
    | some nv, some _ => (strLower (pyStrOfJVal nv)) == k
    | _, _ => false
  | _ => false

/-! ### Concrete inputs used by witnesses and counterexamples -/

/-- First decoded item of the duplicate-name response of Scenario D. -/
def itemXa : JVal := .obj [("name", .str "X"), ("explanation", .str "a")]

/-- Second decoded item of the duplicate-name response of Scenario D. -/
def itemXb : JVal := .obj [("name", .str "X"), ("explanation", .str "b")]

/-- The duplicate-name response of Scenario D. -/
def respDupX : JVal := .obj [("recommendations", .arr [itemXa, itemXb])]


/-- A decoded response whose `recommendations` list is empty. -/
def emptyResp : JVal := .obj [("recommendations", .arr [])]

/-- A sample restaurant used by concrete counterexamples. -/
def rAlpha : Restaurant :=
  { name := "Alpha", cuisine := "italian", location := "downtown", rating := 4, price := 2 }

/-- A second sample restaurant. -/
def rBeta : Restaurant :=
  { name := "Beta", cuisine := "thai", location := "uptown", rating := 3, price := 1 }

/-- A raw preference map requesting exactly one recommendation. -/
def prefsLimit1 : RawPrefs := { limit := some (.int 1) }

/-- A decoded LLM response carrying two valid items. -/
def respTwo : JVal :=
  .obj [("recommendations", .arr
    [.obj [("name", .str "Alpha"), ("explanation", .str "good")],
     .obj [("name", .str "Beta"), ("explanation", .str "nice")]])]

/-- Two restaurants with equal ratings and different prices, the pricier
one listed first. -/
def rTieHigh : Restaurant :=
  { name := "Pricey", cuisine := "italian", location := "downtown",
    rating := 4, price := 9 }

/-- The cheaper restaurant of the rating tie. -/
def rTieLow : Restaurant :=
  { name := "Cheap", cuisine := "italian", location := "uptown",
    rating := 4, price := 1 }

/-- A fully-populated raw preference map whose every field is valid. -/
def pAllValid : RawPrefs :=
  { cuisine := some (.str " Italian ".data)
    location := some (.str "Downtown".data)
    min_rating := some (.float 4)
    max_price := some (.float 30)
    limit := some (.int 5) }

/-! ## Lemmas and claim theorems -/

/-- A field check leaves the flag untouched exactly when it records no error. -/
theorem fieldOk_iff_fieldErr_nil {α : Type} (o : Option (FieldResult α)) :
    fieldOk o = true ↔ fieldErr o = [] := by
  rcases o with _ | f
  · simp [fieldOk, fieldErr]
  · rcases f with _ | e <;> simp [fieldOk, fieldErr]

/-- Each field check contributes one error exactly when it fails. -/
theorem fieldErr_length {α : Type} (o : Option (FieldResult α)) :
    (fieldErr o).length = if fieldOk o then 0 else 1 := by
  rcases o with _ | f
  · simp [fieldOk, fieldErr]
  · rcases f with _ | e <;> simp [fieldOk, fieldErr]

/-- C5: for every raw preference map, the result is invalid iff at least
one field-level error was recorded (warnings never flip validity), and
every failing field contributes its error — all fields are checked even
when one fails, so the error list has exactly one entry per invalid
field. -/
theorem C5_valid_iff_no_errors (p : RawPrefs) :
    ((validateAndNormalize p).is_valid = true ↔ (validateAndNormalize p).errors = []) ∧
    (validateAndNormalize p).errors.length = invalidFieldCount p := by
  constructor
  · simp only [validateAndNormalize, Bool.and_eq_true, List.append_eq_nil,
      fieldOk_iff_fieldErr_nil]
  · simp only [validateAndNormalize, invalidFieldCount, List.length_append,
      fieldErr_length]

/-- First element pulled out of `getLast?`. -/
theorem getLast?_cons_or {α : Type} (a : α) (l : List α) :
    (a :: l).getLast? = Option.or l.getLast? (some a) := by
  cases l with
  | nil => rfl
  | cons b t =>
    rw [List.getLast?_cons_cons]
    cases h : (b :: t).getLast? with
    | none => exact absurd (List.getLast?_eq_none_iff.mp h) (by simp)
    | some x => rfl

/-- Folding the name-keyed update over candidates returns the last
matching candidate, or the accumulator when none matches. -/
theorem foldl_lookup_eq (k : String) (cands : List Restaurant) :
    ∀ acc : Option Restaurant,
      cands.foldl (fun acc r => if (strLower r.name) = k then some r else acc) acc =
        Option.or ((cands.filter (fun c => (strLower c.name) = k)).getLast?) acc := by
  induction cands with
  | nil => intro acc; simp
  | cons c t ih =>
    intro acc
    rw [List.foldl_cons, ih]
    by_cases hc : (strLower c.name) = k
    · have hfil : (c :: t).filter (fun c => (strLower c.name) = k) =
          c :: t.filter (fun c => (strLower c.name) = k) := by
        simp [List.filter_cons, hc]
      rw [hfil, if_pos hc, getLast?_cons_or, Option.or_assoc, Option.or_some]
    · have hfil : (c :: t).filter (fun c => (strLower c.name) = k) =
          t.filter (fun c => (strLower c.name) = k) := by
        simp [List.filter_cons, hc]
      rw [hfil, if_neg hc]

/-- The candidate lookup of the enricher is keyed on the lowercased name
alone and returns the last candidate bearing that name — the dict
comprehension lets later candidates overwrite earlier ones. -/
theorem lookupByName_eq_getLast (cands : List Restaurant) (k : String) :
    lookupByName cands k = (cands.filter (fun c => (strLower c.name) = k)).getLast? := by
  rw [lookupByName, foldl_lookup_eq]
  cases (cands.filter (fun c => (strLower c.name) = k)).getLast? <;> rfl

/-- A successful lookup returns a candidate whose lowercased name is the
key. -/
theorem lookupByName_name {cands : List Restaurant} {k : String} {r : Restaurant}
    (h : lookupByName cands k = some r) : (strLower r.name) = k := by
  rw [lookupByName_eq_getLast] at h
  have hmem := List.mem_of_getLast?_eq_some h
  have := List.mem_filter.mp hmem
  simpa using this.2

/-- Master invariant of the enrichment loop: every full entry is the
(unique) lookup result for its name and its identity key is fresh,
every degraded entry has no matching candidate and a fresh bare name,
the emitted lowercased names are pairwise distinct, and at most one
entry is emitted per shortlist item. -/
theorem enrichLoop_spec (cands : List Restaurant) (l : List Rec) :
    ∀ (sN : List String) (sK : List (String × String)),
      (∀ r expl, EnrichedRec.full r expl ∈ enrichLoop cands sN sK l →
          lookupByName cands (strLower r.name) = some r ∧
          ((strLower r.name), (strLower r.location)) ∉ sK) ∧
      (∀ n expl note, EnrichedRec.degraded n expl note ∈ enrichLoop cands sN sK l →
          lookupByName cands (strLower n) = Option.none ∧ (strLower n) ∉ sN) ∧
      ((enrichLoop cands sN sK l).map (fun e => (strLower (enrichedName e)))).Nodup ∧
      (enrichLoop cands sN sK l).length ≤ l.length := by
  induction l with
  | nil =>
    intro sN sK
    refine ⟨?_, ?_, ?_, ?_⟩ <;> simp [enrichLoop]
  | cons item rest ih =>
    intro sN sK
    by_cases h1 : (strLower item.name) ∈ sN
    · obtain ⟨hf, hd, hnd, hlen⟩ := ih sN sK
      rw [show enrichLoop cands sN sK (item :: rest) = enrichLoop cands sN sK rest by
        simp [enrichLoop, h1]]
      exact ⟨hf, hd, hnd, hlen.trans (Nat.le_succ _)⟩
    · cases h2 : lookupByName cands (strLower item.name) with
      | some r =>
        have hname : (strLower r.name) = (strLower item.name) := lookupByName_name h2
        by_cases h3 : ((strLower item.name), (strLower r.location)) ∈ sK
        · obtain ⟨hf, hd, hnd, hlen⟩ := ih sN sK
          rw [show enrichLoop cands sN sK (item :: rest) = enrichLoop cands sN sK rest by
            simp [enrichLoop, h1, h2, h3]]
          exact ⟨hf, hd, hnd, hlen.trans (Nat.le_succ _)⟩
        · obtain ⟨hf, hd, hnd, hlen⟩ :=
            ih sN (((strLower item.name), (strLower r.location)) :: sK)
          rw [show enrichLoop cands sN sK (item :: rest) =
              EnrichedRec.full r item.explanation ::
                enrichLoop cands sN (((strLower item.name), (strLower r.location)) :: sK) rest by
            simp [enrichLoop, h1, h2, h3]]
          refine ⟨?_, ?_, ?_, ?_⟩
          · intro r' expl' hmem
            rcases List.mem_cons.mp hmem with heq | hmem'
            · cases heq
              refine ⟨by rw [hname]; exact h2, ?_⟩
              rw [hname]; exact h3
            · obtain ⟨hl, hk⟩ := hf r' expl' hmem'
              exact ⟨hl, fun hin => hk (List.mem_cons_of_mem _ hin)⟩
          · intro n expl' note hmem
            rcases List.mem_cons.mp hmem with heq | hmem'
            · cases heq
            · exact hd n expl' note hmem'
          · rw [List.map_cons, List.nodup_cons]
            refine ⟨?_, hnd⟩
            intro hin
            rw [List.mem_map] at hin
            obtain ⟨e, hmem, hlow⟩ := hin
            cases e with
            | full r' expl' =>
              obtain ⟨hl, hk⟩ := hf r' expl' hmem
              have : (strLower r'.name) = (strLower item.name) := by
                simpa [enrichedName, hname] using hlow
              rw [this, h2] at hl
              cases hl
              exact hk (by rw [this]; exact List.mem_cons_self _ _)
            | degraded n' expl' note' =>
              obtain ⟨hl, _⟩ := hd n' expl' note' hmem
              have : (strLower n') = (strLower item.name) := by
                simpa [enrichedName, hname] using hlow
              rw [this, h2] at hl
              cases hl
          · simpa using Nat.succ_le_succ hlen
      | none =>
        obtain ⟨hf, hd, hnd, hlen⟩ := ih ((strLower item.name) :: sN) sK
        rw [show enrichLoop cands sN sK (item :: rest) =
            EnrichedRec.degraded item.name item.explanation "Full details not available" ::
              enrichLoop cands ((strLower item.name) :: sN) sK rest by
          simp [enrichLoop, h1, h2]]
        refine ⟨?_, ?_, ?_, ?_⟩
        · intro r' expl' hmem
          rcases List.mem_cons.mp hmem with heq | hmem'
          · cases heq
          · exact hf r' expl' hmem'
        · intro n expl' note hmem
          rcases List.mem_cons.mp hmem with heq | hmem'
          · cases heq
            exact ⟨h2, h1⟩
          · obtain ⟨hl, hn⟩ := hd n expl' note hmem'
            exact ⟨hl, fun hin => hn (List.mem_cons_of_mem _ hin)⟩
        · rw [List.map_cons, List.nodup_cons]
          refine ⟨?_, hnd⟩
          intro hin
          rw [List.mem_map] at hin
          obtain ⟨e, hmem, hlow⟩ := hin
          cases e with
          | full r' expl' =>
            obtain ⟨hl, _⟩ := hf r' expl' hmem
            have : (strLower r'.name) = (strLower item.name) := by
              simpa [enrichedName] using hlow
            rw [this, h2] at hl
            cases hl
          | degraded n' expl' note' =>
            obtain ⟨_, hn⟩ := hd n' expl' note' hmem
            have : (strLower n') = (strLower item.name) := by
              simpa [enrichedName] using hlow
            exact hn (by rw [this]; exact List.mem_cons_self _ _)
        · simpa using Nat.succ_le_succ hlen

/-- C10: enrichment emits at most one entry per case-insensitive bare
name, and since the candidate lookup is keyed on the lowercased name
alone, a full entry always carries the last candidate in the list with
that lowercased name — when two distinct candidates share a name
case-insensitively, only the later one can appear. -/
theorem C10_name_keyed_lookup (recs : List Rec) (cands : List Restaurant) :
    ((enrich recs cands).map (fun e => (strLower (enrichedName e)))).Nodup ∧
    ∀ r expl, EnrichedRec.full r expl ∈ enrich recs cands →
      (cands.filter (fun c => (strLower c.name) = (strLower r.name))).getLast? = some r := by
  obtain ⟨hf, _, hnd, _⟩ := enrichLoop_spec cands recs [] []
  refine ⟨hnd, ?_⟩
  intro r expl hmem
  obtain ⟨hl, _⟩ := hf r expl hmem
  rw [← lookupByName_eq_getLast]
  exact hl

/-- C1 (amended): the enriched list contains no two entries with the
same (name lowercased, location lowercased) identity, and its length
never exceeds the number of shortlist items — the enricher performs no
`limit` truncation. -/
theorem C1_enriched_dedup_no_truncation (recs : List Rec) (cands : List Restaurant) :
    ((enrich recs cands).map enrichedIdent).Nodup ∧
    (enrich recs cands).length ≤ recs.length := by
  obtain ⟨_, _, hnd, hlen⟩ := enrichLoop_spec cands recs [] []
  refine ⟨?_, hlen⟩
  have hmap : ((enrich recs cands).map enrichedIdent).map Prod.fst =
      (enrich recs cands).map (fun e => (strLower (enrichedName e))) := by
    rw [List.map_map]
    apply List.map_congr_left
    intro e _
    cases e <;> rfl
  have : (((enrich recs cands).map enrichedIdent).map Prod.fst).Nodup := by
    rw [hmap]; exact hnd
  exact this.of_map Prod.fst

/-- When every attempt fails, the retry loop exhausts its budget and
raises (`LLMServiceError`), provided at least one attempt is allowed. -/
theorem genRecsFrom_all_fail (attempts : ℕ → Option JVal)
    (hfail : ∀ i, attemptFails (attempts i) = true) :
    ∀ (fuel start : ℕ), 1 ≤ fuel → ∃ e, genRecsFrom attempts start fuel = .error e := by
  intro fuel
  induction fuel with
  | zero => intro start h; omega
  | succ f ihf =>
    intro start _
    have hout : ∃ e, (match attempts start with
        | some data => parseResponse data
        | Option.none => Except.error "LLM call failed") = Except.error e := by
      cases hatt : attempts start with
      | none => exact ⟨_, rfl⟩
      | some d =>
        have hfa := hfail start
        rw [hatt] at hfa
        cases hp : parseResponse d with
        | error e => exact ⟨e, hp⟩
        | ok l => simp [attemptFails, hp] at hfa
    obtain ⟨e, he⟩ := hout
    by_cases hf : f = 0
    · subst hf
      exact ⟨e, by simp [genRecsFrom, he]⟩
    · obtain ⟨e', he'⟩ := ihf (start + 1) (by omega)
      exact ⟨e', by simp [genRecsFrom, he, hf, he']⟩

/-- C2: with a non-empty candidate list, if every LLM attempt fails until
the retries are exhausted, `get_recommendations` still returns the main
success envelope built from the deterministic fallback ranking of the
candidates — no LLM error reaches the caller. -/
theorem C2_llm_failure_falls_back (prefs : RawPrefs) (dbResults : List Restaurant)
    (maxRetries : ℕ) (attempts : ℕ → Option JVal)
    (hvalid : (validateAndNormalize prefs).is_valid = true)
    (hcand : dedupRestaurants dbResults ≠ [])
    (hretry : 1 ≤ maxRetries)
    (hfail : ∀ i, attemptFails (attempts i) = true) :
    getRecommendations prefs dbResults true maxRetries attempts =
      EngineResult.ok
        (enrich
          (generateFallbackRecommendations (dedupRestaurants dbResults)
            ((validateAndNormalize prefs).normalized_preferences.limit.getD 10))
          (dedupRestaurants dbResults))
        (dedupRestaurants dbResults).length
        (enrich
          (generateFallbackRecommendations (dedupRestaurants dbResults)
            ((validateAndNormalize prefs).normalized_preferences.limit.getD 10))
          (dedupRestaurants dbResults)).length
        (getFilterSummary (validateAndNormalize prefs).normalized_preferences)
        (validateAndNormalize prefs).warnings := by
  have hisEmpty : (dedupRestaurants dbResults).isEmpty = false := by
    cases h : dedupRestaurants dbResults with
    | nil => exact absurd h hcand
    | cons a t => rfl
  obtain ⟨e, he⟩ := genRecsFrom_all_fail attempts hfail maxRetries 0 hretry
  have hgen : generateRecommendations (dedupRestaurants dbResults) maxRetries attempts =
      .error e := by
    simp [generateRecommendations, hisEmpty, he]
  unfold getRecommendations
  simp [hvalid, hisEmpty, hgen]

/-- C3 (amended): a response that decodes and has the expected structure
is returned as-is by the generator on its first attempt, even when the
item filter leaves zero valid recommendations — an empty parse result is
a silent success, not a retry/fallback trigger. -/
theorem C3_zero_valid_is_silent_success (restaurants : List Restaurant)
    (maxRetries : ℕ) (attempts : ℕ → Option JVal) (d : JVal) (l : List Rec)
    (hne : restaurants ≠ []) (hretry : 1 ≤ maxRetries)
    (h0 : attempts 0 = some d) (hp : parseResponse d = .ok l) :
    generateRecommendations restaurants maxRetries attempts = .ok l := by
  obtain ⟨f, rfl⟩ : ∃ f, maxRetries = f + 1 := ⟨maxRetries - 1, by omega⟩
  have hisEmpty : restaurants.isEmpty = false := by
    cases restaurants with
    | nil => exact absurd rfl hne
    | cons a t => rfl
  simp [generateRecommendations, hisEmpty, genRecsFrom, h0, hp]

/-- C3 counterexample: a response with zero valid items after filtering is
NOT treated as a parse failure — `_parse_response` returns the empty
list and the generator returns it as a success on the first attempt,
with no retry and no fallback. -/
theorem C3_counterexample :
    parseResponse emptyResp = .ok [] ∧
    generateRecommendations [rAlpha] 3 (fun _ => some emptyResp) = .ok [] := by
  exact ⟨rfl, rfl⟩

/-- Witness for C2 at a concrete input: empty preferences, one candidate,
three retries, every attempt a transport failure. -/
theorem C2_witness :
    (validateAndNormalize {}).is_valid = true ∧
    dedupRestaurants [rAlpha] ≠ [] ∧
    (1 : ℕ) ≤ 3 ∧
    (∀ i : ℕ, attemptFails ((fun _ => Option.none) i) = true) ∧
    getRecommendations {} [rAlpha] true 3 (fun _ => Option.none) =
      EngineResult.ok
        (enrich
          (generateFallbackRecommendations (dedupRestaurants [rAlpha])
            ((validateAndNormalize {}).normalized_preferences.limit.getD 10))
          (dedupRestaurants [rAlpha]))
        (dedupRestaurants [rAlpha]).length
        (enrich
          (generateFallbackRecommendations (dedupRestaurants [rAlpha])
            ((validateAndNormalize {}).normalized_preferences.limit.getD 10))
          (dedupRestaurants [rAlpha])).length
        (getFilterSummary (validateAndNormalize {}).normalized_preferences)
        (validateAndNormalize {}).warnings :=
  ⟨rfl, by decide, by decide, fun i => rfl,
    C2_llm_failure_falls_back {} [rAlpha] 3 (fun _ => Option.none)
      rfl (by decide) (by decide) (fun i => rfl)⟩

/-- C1 counterexample: with a user-requested `limit` of 1 and an LLM
response containing two valid items, the enriched recommendation list
of the full pipeline has two entries — enrichment never truncates to
the requested limit. -/
theorem C1_counterexample :
    (validateAndNormalize prefsLimit1).normalized_preferences.limit = some 1 ∧
    (okRecs (getRecommendations prefsLimit1 [rAlpha, rBeta] true 3
        (fun _ => some respTwo))).map List.length = some 2 :=
  ⟨rfl, by decide⟩

/-- C6 counterexample: with no `limit` supplied the processor defaults it
to 10, and the defaulted limit DOES appear in `filters_applied` of the
successful result envelope. -/
theorem C6_counterexample :
    ({} : RawPrefs).limit = Option.none ∧
    okFilters (getRecommendations {} [rAlpha] false 0 (fun _ => Option.none)) =
      some { cuisine := Option.none, location := Option.none,
             min_rating := Option.none, max_price := Option.none,
             limit := some 10 } :=
  ⟨rfl, rfl⟩

/-- C6 (amended): on the main success path, `filters_applied` is exactly
the filter summary of the normalized preferences: optional fields that
were not supplied are omitted, but `limit` always appears — the
normalizer always sets it, defaulted or not. -/
theorem C6_filters_applied (prefs : RawPrefs) (dbResults : List Restaurant)
    (hasLLM : Bool) (maxRetries : ℕ) (attempts : ℕ → Option JVal) (f : NormPrefs)
    (h : okFilters (getRecommendations prefs dbResults hasLLM maxRetries attempts) =
      some f) :
    f = getFilterSummary (validateAndNormalize prefs).normalized_preferences ∧
    f.limit.isSome = true ∧
    (presentVal prefs.cuisine = Option.none → f.cuisine = Option.none) ∧
    (presentVal prefs.location = Option.none → f.location = Option.none) ∧
    (presentVal prefs.min_rating = Option.none → f.min_rating = Option.none) ∧
    (presentVal prefs.max_price = Option.none → f.max_price = Option.none) := by
  by_cases hv : (validateAndNormalize prefs).is_valid = false
  · rw [getRecommendations.eq_def] at h
    simp [hv, okFilters] at h
  · by_cases he : (dedupRestaurants dbResults).isEmpty
    · rw [getRecommendations.eq_def] at h
      simp [hv, he, okFilters] at h
    · rw [getRecommendations.eq_def] at h
      simp [hv, he, okFilters] at h
      have hvalid : (validateAndNormalize prefs).is_valid = true :=
        Bool.not_eq_false _ |>.mp hv
      subst h
      refine ⟨rfl, ?_, ?_, ?_, ?_, ?_⟩
      · have hand := hvalid
        rw [validateAndNormalize] at hand
        simp only [Bool.and_eq_true] at hand
        cases hlim : presentVal prefs.limit with
        | none =>
          simp [getFilterSummary, validateAndNormalize, hlim, fieldNorm]
        | some v =>
          have hli : fieldOk (some (validateLimit v)) = true := by
            simpa [hlim] using hand.2
          cases hres : validateLimit v with
          | valid n w =>
            simp [getFilterSummary, validateAndNormalize, hlim, hres, fieldNorm]
          | invalid e =>
            rw [hres] at hli
            simp [fieldOk] at hli
      · intro hc
        simp [getFilterSummary, validateAndNormalize, hc, fieldNorm]
      · intro hc
        simp [getFilterSummary, validateAndNormalize, hc, fieldNorm]
      · intro hc
        simp [getFilterSummary, validateAndNormalize, hc, fieldNorm]
      · intro hc
        simp [getFilterSummary, validateAndNormalize, hc, fieldNorm]

/-- Master invariant of the parser's item loop: every emitted entry has a
fresh lowercased name, originates from the FIRST item of the list that
is a dict with both keys and bears that name, and the emitted lowercased
names are pairwise distinct. -/
theorem parseLoop_spec (items : List JVal) :
    ∀ seen : List String,
      (∀ e ∈ parseLoop seen items,
        (strLower e.name) ∉ seen ∧
        ∃ fs nv ev,
          items.find? (validItemWithName (strLower e.name)) = some (JVal.obj fs) ∧
          jGet fs "name" = some nv ∧ jGet fs "explanation" = some ev ∧
          e = { name := pyStrOfJVal nv, explanation := pyStrOfJVal ev }) ∧
      ((parseLoop seen items).map (fun r => strLower r.name)).Nodup := by
  induction items with
  | nil =>
    intro seen
    constructor
    · intro e he; simp [parseLoop] at he
    · simp [parseLoop]
  | cons j rest ih =>
    intro seen
    cases j with
    | obj fs =>
      cases hn : jGet fs "name" with
      | none =>
        have hskip : parseLoop seen (JVal.obj fs :: rest) = parseLoop seen rest := by
          simp [parseLoop, hn]
        have hfalse : ∀ k, validItemWithName k (JVal.obj fs) = false := by
          intro k; simp [validItemWithName, hn]
        rw [hskip]
        obtain ⟨hmem, hnd⟩ := ih seen
        refine ⟨?_, hnd⟩
        intro e he
        obtain ⟨hs, fs', nv, ev, hfind, h1, h2, h3⟩ := hmem e he
        exact ⟨hs, fs', nv, ev, by
          rw [List.find?_cons_of_neg _ (by simp [hfalse])]; exact hfind, h1, h2, h3⟩
      | some nv =>
        cases he : jGet fs "explanation" with
        | none =>
          have hskip : parseLoop seen (JVal.obj fs :: rest) = parseLoop seen rest := by
            simp [parseLoop, hn, he]
          have hfalse : ∀ k, validItemWithName k (JVal.obj fs) = false := by
            intro k; simp [validItemWithName, hn, he]
          rw [hskip]
          obtain ⟨hmem, hnd⟩ := ih seen
          refine ⟨?_, hnd⟩
          intro e hme
          obtain ⟨hs, fs', nv', ev, hfind, h1, h2, h3⟩ := hmem e hme
          exact ⟨hs, fs', nv', ev, by
            rw [List.find?_cons_of_neg _ (by simp [hfalse])]; exact hfind, h1, h2, h3⟩
        | some ev =>
          by_cases hseen : (strLower (pyStrOfJVal nv)) ∈ seen
          · have hskip : parseLoop seen (JVal.obj fs :: rest) = parseLoop seen rest := by
              simp [parseLoop, hn, he, hseen]
            rw [hskip]
            obtain ⟨hmem, hnd⟩ := ih seen
            refine ⟨?_, hnd⟩
            intro e hme
            obtain ⟨hs, fs', nv', ev', hfind, h1, h2, h3⟩ := hmem e hme
            have hne : validItemWithName (strLower e.name) (JVal.obj fs) = false := by
              simp only [validItemWithName, hn, he]
              rw [beq_eq_false_iff_ne]
              intro hcontra
              rw [hcontra] at hseen
              exact hs hseen
            exact ⟨hs, fs', nv', ev', by
              rw [List.find?_cons_of_neg _ (by simp [hne])]; exact hfind, h1, h2, h3⟩
          · have hcons : parseLoop seen (JVal.obj fs :: rest) =
                { name := pyStrOfJVal nv, explanation := pyStrOfJVal ev } ::
                  parseLoop ((strLower (pyStrOfJVal nv)) :: seen) rest := by
              simp [parseLoop, hn, he, hseen]
            rw [hcons]
            obtain ⟨hmem, hnd⟩ := ih ((strLower (pyStrOfJVal nv)) :: seen)
            refine ⟨?_, ?_⟩
            · intro e hme
              rcases List.mem_cons.mp hme with rfl | hme'
              · refine ⟨hseen, fs, nv, ev, ?_, hn, he, rfl⟩
                rw [List.find?_cons_of_pos]
                simp [validItemWithName, hn, he]
              · obtain ⟨hs, fs', nv', ev', hfind, h1, h2, h3⟩ := hmem e hme'
                have hnotn0 : strLower e.name ≠ strLower (pyStrOfJVal nv) := by
                  intro hcontra
                  exact hs (by rw [hcontra]; exact List.mem_cons_self _ _)
                have hsn : strLower e.name ∉ seen := fun hin =>
                  hs (List.mem_cons_of_mem _ hin)
                have hne : validItemWithName (strLower e.name) (JVal.obj fs) = false := by
                  simp only [validItemWithName, hn, he]
                  rw [beq_eq_false_iff_ne]
                  exact fun hcontra => hnotn0 hcontra.symm
                exact ⟨hsn, fs', nv', ev', by
                  rw [List.find?_cons_of_neg _ (by simp [hne])]; exact hfind, h1, h2, h3⟩
            · rw [List.map_cons, List.nodup_cons]
              refine ⟨?_, hnd⟩
              intro hin
              rw [List.mem_map] at hin
              obtain ⟨e, hme, hlow⟩ := hin
              obtain ⟨hs, _⟩ := hmem e hme
              exact hs (by rw [hlow]; exact List.mem_cons_self _ _)
    | str s =>
      rw [show parseLoop seen (JVal.str s :: rest) = parseLoop seen rest by
        simp [parseLoop]]
      obtain ⟨hmem, hnd⟩ := ih seen
      refine ⟨?_, hnd⟩
      intro e hme
      obtain ⟨hs, fs', nv', ev', hfind, h1, h2, h3⟩ := hmem e hme
      exact ⟨hs, fs', nv', ev', by
        rw [List.find?_cons_of_neg _ (by simp [validItemWithName])]; exact hfind, h1, h2, h3⟩
    | num q =>
      rw [show parseLoop seen (JVal.num q :: rest) = parseLoop seen rest by
        simp [parseLoop]]
      obtain ⟨hmem, hnd⟩ := ih seen
      refine ⟨?_, hnd⟩
      intro e hme
      obtain ⟨hs, fs', nv', ev', hfind, h1, h2, h3⟩ := hmem e hme
      exact ⟨hs, fs', nv', ev', by
        rw [List.find?_cons_of_neg _ (by simp [validItemWithName])]; exact hfind, h1, h2, h3⟩
    | bool b =>
      rw [show parseLoop seen (JVal.bool b :: rest) = parseLoop seen rest by
        simp [parseLoop]]
      obtain ⟨hmem, hnd⟩ := ih seen
      refine ⟨?_, hnd⟩
      intro e hme
      obtain ⟨hs, fs', nv', ev', hfind, h1, h2, h3⟩ := hmem e hme
      exact ⟨hs, fs', nv', ev', by
        rw [List.find?_cons_of_neg _ (by simp [validItemWithName])]; exact hfind, h1, h2, h3⟩
    | null =>
      rw [show parseLoop seen (JVal.null :: rest) = parseLoop seen rest by
        simp [parseLoop]]
      obtain ⟨hmem, hnd⟩ := ih seen
      refine ⟨?_, hnd⟩
      intro e hme
      obtain ⟨hs, fs', nv', ev', hfind, h1, h2, h3⟩ := hmem e hme
      exact ⟨hs, fs', nv', ev', by
        rw [List.find?_cons_of_neg _ (by simp [validItemWithName])]; exact hfind, h1, h2, h3⟩
    | arr l =>
      rw [show parseLoop seen (JVal.arr l :: rest) = parseLoop seen rest by
        simp [parseLoop]]
      obtain ⟨hmem, hnd⟩ := ih seen
      refine ⟨?_, hnd⟩
      intro e hme
      obtain ⟨hs, fs', nv', ev', hfind, h1, h2, h3⟩ := hmem e hme
      exact ⟨hs, fs', nv', ev', by
        rw [List.find?_cons_of_neg _ (by simp [validItemWithName])]; exact hfind, h1, h2, h3⟩

/-- C7 counterexample: an item whose `name` and `explanation` are both
the EMPTY string is kept by the parser — only presence of the keys is
checked, not non-emptiness, so the claim that items lacking a non-empty
name or explanation are dropped is false. -/
theorem C7_counterexample :
    parseResponse (.arr [.obj [("name", JVal.str ""), ("explanation", JVal.str "")]]) =
      .ok [{ name := "", explanation := "" }] := rfl

/-- C7 (amended): each parsed item must be a JSON object carrying both a
`name` and an `explanation` key, or it is silently dropped (the
structural walk itself never errors); the attached values are
stringified and may be empty. -/
theorem C7_missing_key_items_dropped (items : List JVal) :
    (∃ out, parseResponse (.arr items) = .ok out) ∧
    ∀ out, parseResponse (.arr items) = .ok out →
      ∀ e ∈ out, ∃ fs nv ev, JVal.obj fs ∈ items ∧
        jGet fs "name" = some nv ∧ jGet fs "explanation" = some ev ∧
        e.name = pyStrOfJVal nv ∧ e.explanation = pyStrOfJVal ev := by
  constructor
  · exact ⟨parseLoop [] items, rfl⟩
  · intro out hout e hmem
    have hout' : out = parseLoop [] items := by
      have : Except.ok (parseLoop [] items) =
          (Except.ok out : Except String (List Rec)) := hout ▸ rfl
      exact (Except.ok.inj this).symm
    subst hout'
    obtain ⟨_, fs, nv, ev, hfind, h1, h2, h3⟩ := (parseLoop_spec items []).1 e hmem
    exact ⟨fs, nv, ev, List.mem_of_find?_eq_some hfind, h1, h2,
      by rw [h3], by rw [h3]⟩

/-- Witness for C7 at a concrete input: one malformed item (missing
`explanation`) and one valid item; only the valid one survives, and it
originates from its item as the theorem states. -/
theorem C7_witness :
    (∃ out, parseResponse (.arr [.obj [("name", JVal.str "Solo")], itemXa]) = .ok out) ∧
    ∀ out, parseResponse (.arr [.obj [("name", JVal.str "Solo")], itemXa]) = .ok out →
      ∀ e ∈ out, ∃ fs nv ev,
        JVal.obj fs ∈ [.obj [("name", JVal.str "Solo")], itemXa] ∧
        jGet fs "name" = some nv ∧ jGet fs "explanation" = some ev ∧
        e.name = pyStrOfJVal nv ∧ e.explanation = pyStrOfJVal ev :=
  C7_missing_key_items_dropped [.obj [("name", JVal.str "Solo")], itemXa]

/-- C9: within one response, a repeated name (case-insensitively) is kept
only at its first occurrence — the parsed list has pairwise-distinct
lowercased names and every entry is built from the FIRST structurally
valid item bearing its name. -/
theorem C9_first_occurrence_kept (data : JVal) (items : List JVal) (out : List Rec)
    (hx : extractRecs data = some items) (hp : parseResponse data = .ok out) :
    ((out.map (fun r => strLower r.name)).Nodup) ∧
    ∀ e ∈ out, ∃ fs nv ev,
      items.find? (validItemWithName (strLower e.name)) = some (JVal.obj fs) ∧
      jGet fs "name" = some nv ∧ jGet fs "explanation" = some ev ∧
      e = { name := pyStrOfJVal nv, explanation := pyStrOfJVal ev } := by
  have hout : out = parseLoop [] items := by
    rw [parseResponse, hx] at hp
    exact (Except.ok.inj hp).symm
  subst hout
  obtain ⟨hmem, hnd⟩ := parseLoop_spec items []
  exact ⟨hnd, fun e he => (hmem e he).2⟩

/-- Witness for C9 at Scenario D's input: the response repeats the name
"X"; exactly one entry survives and it carries the first occurrence's
explanation. -/
theorem C9_witness :
    extractRecs respDupX = some [itemXa, itemXb] ∧
    parseResponse respDupX = .ok [{ name := "X", explanation := "a" }] ∧
    ((([{ name := "X", explanation := "a" }] : List Rec).map
      (fun r => strLower r.name)).Nodup ∧
    ∀ e ∈ ([{ name := "X", explanation := "a" }] : List Rec), ∃ fs nv ev,
      ([itemXa, itemXb].find? (validItemWithName (strLower e.name))) =
        some (JVal.obj fs) ∧
      jGet fs "name" = some nv ∧ jGet fs "explanation" = some ev ∧
      e = { name := pyStrOfJVal nv, explanation := pyStrOfJVal ev }) :=
  ⟨rfl, rfl, C9_first_occurrence_kept respDupX [itemXa, itemXb]
    [{ name := "X", explanation := "a" }] rfl rfl⟩

/-- Packing a valid code point and reading it back is the identity. -/
theorem toNat_ofNat_of_valid {n : ℕ} (h : n.isValidChar) :
    (Char.ofNat n).toNat = n := by
  unfold Char.ofNat
  rw [dif_pos h]
  rfl

/-- Lowercasing never turns a character into (or out of) whitespace. -/
theorem chIsSpace_chLower (c : Char) : chIsSpace (chLower c) = chIsSpace c := by
  show chIsSpace (if c.toNat ≥ 65 ∧ c.toNat ≤ 90 then Char.ofNat (c.toNat + 32) else c) =
    chIsSpace c
  split
  next hc =>
    have hv : (c.toNat + 32).isValidChar := Or.inl (by omega)
    have ha : ∀ m : ℕ, 65 ≤ m →
        ((m = 32 : Bool) || (m = 9 : Bool) || (m = 10 : Bool) || (m = 13 : Bool) ||
          (m = 11 : Bool) || (m = 12 : Bool)) = false := by
      intro m hm
      simp only [Bool.or_eq_false_iff, decide_eq_false_iff_not]
      omega
    unfold chIsSpace
    rw [toNat_ofNat_of_valid hv, ha _ (by omega), ha _ (by omega)]
  next hc => rfl

/-- A character with a code point ≥ 97 is left unchanged by lowercasing. -/
theorem chLower_of_ge {d : Char} (hd : 97 ≤ d.toNat) : chLower d = d := by
  show (if d.toNat ≥ 65 ∧ d.toNat ≤ 90 then Char.ofNat (d.toNat + 32) else d) = d
  rw [if_neg (by omega)]

/-- Lowercasing one character is idempotent. -/
theorem chLower_chLower (c : Char) : chLower (chLower c) = chLower c := by
  by_cases hc : c.toNat ≥ 65 ∧ c.toNat ≤ 90
  · have h1 : chLower c = Char.ofNat (c.toNat + 32) := by
      show (if c.toNat ≥ 65 ∧ c.toNat ≤ 90 then Char.ofNat (c.toNat + 32) else c) = _
      rw [if_pos hc]
    have hv : (c.toNat + 32).isValidChar := Or.inl (by omega)
    rw [h1]
    exact chLower_of_ge (by rw [toNat_ofNat_of_valid hv]; omega)
  · have h1 : chLower c = c := by
      show (if c.toNat ≥ 65 ∧ c.toNat ≤ 90 then Char.ofNat (c.toNat + 32) else c) = c
      rw [if_neg hc]
    rw [h1, h1]

/-- Lowercasing a string is idempotent. -/
theorem pyLower_pyLower (s : List Char) : pyLower (pyLower s) = pyLower s := by
  rw [pyLower, pyLower, List.map_map]
  exact List.map_congr_left fun c _ => chLower_chLower c

/-- Dropping leading whitespace commutes with lowercasing. -/
theorem dropWhile_pyLower (s : List Char) :
    List.dropWhile chIsSpace (pyLower s) = pyLower (List.dropWhile chIsSpace s) := by
  have hp : (chIsSpace ∘ chLower) = chIsSpace := funext fun c => chIsSpace_chLower c
  rw [pyLower, List.dropWhile_map, hp, pyLower]

/-- Stripping commutes with lowercasing. -/
theorem pyStrip_pyLower (s : List Char) :
    pyStrip (pyLower s) = pyLower (pyStrip s) := by
  rw [pyStrip, pyStrip, pyLower, ← List.map_reverse, ← pyLower, dropWhile_pyLower,
    pyLower, ← List.map_reverse, ← pyLower, dropWhile_pyLower]

/-- The head of a stripped string is not whitespace. -/
theorem head?_pyStrip (s : List Char) :
    ∀ a ∈ (pyStrip s).head?, chIsSpace a = false := by
  intro a ha
  have h := List.head?_dropWhile_not chIsSpace
    ((List.dropWhile chIsSpace s.reverse).reverse)
  rw [pyStrip] at ha
  rw [Option.mem_def] at ha
  rw [ha] at h
  exact h

/-- The last character of a stripped string is not whitespace. -/
theorem getLast?_pyStrip (s : List Char) :
    ∀ a ∈ (pyStrip s).getLast?, chIsSpace a = false := by
  intro a ha
  rw [pyStrip] at ha
  rw [Option.mem_def] at ha
  obtain ⟨pre, hpre⟩ := List.dropWhile_suffix (l := (List.dropWhile chIsSpace s.reverse).reverse)
    chIsSpace
  have hw : ((List.dropWhile chIsSpace s.reverse).reverse).getLast? = some a := by
    rw [← hpre, List.getLast?_append, ha, Option.or_some]
  rw [List.getLast?_reverse] at hw
  have h := List.head?_dropWhile_not chIsSpace s.reverse
  rw [hw] at h
  exact h

/-- A string whose two ends are not whitespace is already stripped. -/
theorem pyStrip_of_noSpace (u : List Char)
    (h1 : ∀ a ∈ u.head?, chIsSpace a = false)
    (h2 : ∀ a ∈ u.getLast?, chIsSpace a = false) : pyStrip u = u := by
  have hrev : List.dropWhile chIsSpace u.reverse = u.reverse := by
    cases hu : u.reverse with
    | nil => simp
    | cons a t =>
      have ha : chIsSpace a = false := by
        refine h2 a ?_
        rw [Option.mem_def, ← List.head?_reverse, hu]
        rfl
      rw [List.dropWhile_cons, ha]
      simp
  rw [pyStrip, hrev, List.reverse_reverse]
  cases u with
  | nil => simp
  | cons a t =>
    have ha : chIsSpace a = false := h1 a rfl
    simp [List.dropWhile_cons, ha]

/-- Stripping is idempotent. -/
theorem pyStrip_pyStrip (s : List Char) : pyStrip (pyStrip s) = pyStrip s :=
  pyStrip_of_noSpace _ (head?_pyStrip s) (getLast?_pyStrip s)

/-- The strip-then-lowercase normalization of the preference processor is
a projection: applying it to its own output is the identity. -/
theorem normStr_fixpoint (s : List Char) :
    pyLower (pyStrip (pyLower (pyStrip s))) = pyLower (pyStrip s) := by
  rw [pyStrip_pyLower (pyStrip s), pyStrip_pyStrip, pyLower_pyLower]

/-- Re-validating a normalized cuisine reproduces it exactly, warning
included. -/
theorem validateCuisine_roundtrip {v : PyVal} {s : List Char} {w : Option Warn}
    (h : validateCuisine v = .valid s w) :
    validateCuisine (.str s) = .valid s w := by
  cases v with
  | str s0 =>
    simp only [validateCuisine] at h
    split at h
    · exact absurd h (by simp)
    · rename_i hne
      split at h
      · rename_i hcont
        injection h with h1 h2
        subst h1
        subst h2
        simp only [validateCuisine, normStr_fixpoint]
        rw [if_neg hne, if_pos hcont]
      · rename_i hcont
        injection h with h1 h2
        subst h1
        subst h2
        simp only [validateCuisine, normStr_fixpoint]
        rw [if_neg hne, if_neg hcont]
  | int n => simp [validateCuisine] at h
  | float q => simp [validateCuisine] at h
  | bool b => simp [validateCuisine] at h
  | null => simp [validateCuisine] at h

/-- Re-validating a normalized location reproduces it exactly. -/
theorem validateLocation_roundtrip {v : PyVal} {s : List Char} {w : Option Warn}
    (h : validateLocation v = .valid s w) :
    validateLocation (.str s) = .valid s w := by
  cases v with
  | str s0 =>
    simp only [validateLocation] at h
    split at h
    · exact absurd h (by simp)
    · rename_i hne
      injection h with h1 h2
      subst h1
      subst h2
      simp only [validateLocation, normStr_fixpoint]
      rw [if_neg hne]
  | int n => simp [validateLocation] at h
  | float q => simp [validateLocation] at h
  | bool b => simp [validateLocation] at h
  | null => simp [validateLocation] at h

/-- Re-validating a normalized rating reproduces it exactly. -/
theorem validateRating_roundtrip {v : PyVal} {q : ℚ} {w : Option Warn}
    (h : validateRating v = .valid q w) :
    validateRating (.float q) = .valid q w := by
  simp only [validateRating] at h
  split at h
  · exact absurd h (by simp)
  · split at h
    · exact absurd h (by simp)
    · rename_i hrange
      injection h with h1 h2
      subst h1
      subst h2
      simp only [validateRating, pyFloat]
      rw [if_neg hrange]

/-- Re-validating a normalized price reproduces it exactly. -/
theorem validatePrice_roundtrip {v : PyVal} {q : ℚ} {w : Option Warn}
    (h : validatePrice v = .valid q w) :
    validatePrice (.float q) = .valid q w := by
  simp only [validatePrice] at h
  split at h
  · exact absurd h (by simp)
  · split at h
    · exact absurd h (by simp)
    · split at h
      · exact absurd h (by simp)
      · rename_i hlow hhigh
        injection h with h1 h2
        subst h1
        subst h2
        simp only [validatePrice, pyFloat]
        rw [if_neg hlow, if_neg hhigh]

/-- Re-validating a normalized limit reproduces it exactly. -/
theorem validateLimit_roundtrip {v : PyVal} {n : ℤ} {w : Option Warn}
    (h : validateLimit v = .valid n w) :
    validateLimit (.int n) = .valid n w := by
  simp only [validateLimit] at h
  split at h
  · exact absurd h (by simp)
  · split at h
    · exact absurd h (by simp)
    · rename_i hrange
      injection h with h1 h2
      subst h1
      subst h2
      simp only [validateLimit, pyInt]
      rw [if_neg hrange]

/-- C8: for every preference map whose supplied fields are all valid,
validation is idempotent — re-validating the normalized output yields
the same normalized output, no errors, and a valid result. -/
theorem C8_validate_idempotent (p : RawPrefs)
    (h : (validateAndNormalize p).is_valid = true) :
    (validateAndNormalize
        (toRaw (validateAndNormalize p).normalized_preferences)).normalized_preferences =
      (validateAndNormalize p).normalized_preferences ∧
    (validateAndNormalize
        (toRaw (validateAndNormalize p).normalized_preferences)).errors = [] ∧
    (validateAndNormalize
        (toRaw (validateAndNormalize p).normalized_preferences)).is_valid = true := by
  have hand : (fieldOk ((presentVal p.cuisine).map validateCuisine) &&
      fieldOk ((presentVal p.location).map validateLocation) &&
      fieldOk ((presentVal p.min_rating).map validateRating) &&
      fieldOk ((presentVal p.max_price).map validatePrice) &&
      fieldOk (match presentVal p.limit with
        | some v => some (validateLimit v)
        | Option.none => some (FieldResult.valid (10 : ℤ) Option.none))) = true := h
  rw [Bool.and_eq_true, Bool.and_eq_true, Bool.and_eq_true, Bool.and_eq_true] at hand
  obtain ⟨⟨⟨⟨hC, hL⟩, hR⟩, hP⟩, hLi⟩ := hand
  have KC : ∃ o,
      (presentVal (((validateAndNormalize p).normalized_preferences).cuisine.map
        PyVal.str)).map validateCuisine = o ∧
      fieldNorm o = (validateAndNormalize p).normalized_preferences.cuisine ∧
      fieldErr o = ([] : List ErrMsg) ∧ fieldOk o = true := by
    cases hcv : presentVal p.cuisine with
    | none =>
      have hn : (validateAndNormalize p).normalized_preferences.cuisine = Option.none := by
        show fieldNorm ((presentVal p.cuisine).map validateCuisine) = Option.none
        rw [hcv]
        rfl
      exact ⟨Option.none, by rw [hn]; rfl, by rw [hn]; rfl, rfl, rfl⟩
    | some v =>
      cases hres : validateCuisine v with
      | invalid e =>
        exfalso
        rw [hcv] at hC
        simp [fieldOk, hres] at hC
      | valid s w =>
        have hn : (validateAndNormalize p).normalized_preferences.cuisine = some s := by
          show fieldNorm ((presentVal p.cuisine).map validateCuisine) = some s
          rw [hcv]
          show fieldNorm (some (validateCuisine v)) = some s
          rw [hres]
          rfl
        refine ⟨some (validateCuisine (.str s)), by rw [hn]; rfl, ?_, ?_, ?_⟩
        · rw [validateCuisine_roundtrip hres, hn]
          rfl
        · rw [validateCuisine_roundtrip hres]
          rfl
        · rw [validateCuisine_roundtrip hres]
          rfl
  have KL : ∃ o,
      (presentVal (((validateAndNormalize p).normalized_preferences).location.map
        PyVal.str)).map validateLocation = o ∧
      fieldNorm o = (validateAndNormalize p).normalized_preferences.location ∧
      fieldErr o = ([] : List ErrMsg) ∧ fieldOk o = true := by
    cases hcv : presentVal p.location with
    | none =>
      have hn : (validateAndNormalize p).normalized_preferences.location = Option.none := by
        show fieldNorm ((presentVal p.location).map validateLocation) = Option.none
        rw [hcv]
        rfl
      exact ⟨Option.none, by rw [hn]; rfl, by rw [hn]; rfl, rfl, rfl⟩
    | some v =>
      cases hres : validateLocation v with
      | invalid e =>
        exfalso
        rw [hcv] at hL
        simp [fieldOk, hres] at hL
      | valid s w =>
        have hn : (validateAndNormalize p).normalized_preferences.location = some s := by
          show fieldNorm ((presentVal p.location).map validateLocation) = some s
          rw [hcv]
          show fieldNorm (some (validateLocation v)) = some s
          rw [hres]
          rfl
        refine ⟨some (validateLocation (.str s)), by rw [hn]; rfl, ?_, ?_, ?_⟩
        · rw [validateLocation_roundtrip hres, hn]
          rfl
        · rw [validateLocation_roundtrip hres]
          rfl
        · rw [validateLocation_roundtrip hres]
          rfl
  have KR : ∃ o,
      (presentVal (((validateAndNormalize p).normalized_preferences).min_rating.map
        PyVal.float)).map validateRating = o ∧
      fieldNorm o = (validateAndNormalize p).normalized_preferences.min_rating ∧
      fieldErr o = ([] : List ErrMsg) ∧ fieldOk o = true := by
    cases hcv : presentVal p.min_rating with
    | none =>
      have hn : (validateAndNormalize p).normalized_preferences.min_rating = Option.none := by
        show fieldNorm ((presentVal p.min_rating).map validateRating) = Option.none
        rw [hcv]
        rfl
      exact ⟨Option.none, by rw [hn]; rfl, by rw [hn]; rfl, rfl, rfl⟩
    | some v =>
      cases hres : validateRating v with
      | invalid e =>
        exfalso
        rw [hcv] at hR
        simp [fieldOk, hres] at hR
      | valid q w =>
        have hn : (validateAndNormalize p).normalized_preferences.min_rating = some q := by
          show fieldNorm ((presentVal p.min_rating).map validateRating) = some q
          rw [hcv]
          show fieldNorm (some (validateRating v)) = some q
          rw [hres]
          rfl
        refine ⟨some (validateRating (.float q)), by rw [hn]; rfl, ?_, ?_, ?_⟩
        · rw [validateRating_roundtrip hres, hn]
          rfl
        · rw [validateRating_roundtrip hres]
          rfl
        · rw [validateRating_roundtrip hres]
          rfl
  have KP : ∃ o,
      (presentVal (((validateAndNormalize p).normalized_preferences).max_price.map
        PyVal.float)).map validatePrice = o ∧
      fieldNorm o = (validateAndNormalize p).normalized_preferences.max_price ∧
      fieldErr o = ([] : List ErrMsg) ∧ fieldOk o = true := by
    cases hcv : presentVal p.max_price with
    | none =>
      have hn : (validateAndNormalize p).normalized_preferences.max_price = Option.none := by
        show fieldNorm ((presentVal p.max_price).map validatePrice) = Option.none
        rw [hcv]
        rfl
      exact ⟨Option.none, by rw [hn]; rfl, by rw [hn]; rfl, rfl, rfl⟩
    | some v =>
      cases hres : validatePrice v with
      | invalid e =>
        exfalso
        rw [hcv] at hP
        simp [fieldOk, hres] at hP
      | valid q w =>
        have hn : (validateAndNormalize p).normalized_preferences.max_price = some q := by
          show fieldNorm ((presentVal p.max_price).map validatePrice) = some q
          rw [hcv]
          show fieldNorm (some (validatePrice v)) = some q
          rw [hres]
          rfl
        refine ⟨some (validatePrice (.float q)), by rw [hn]; rfl, ?_, ?_, ?_⟩
        · rw [validatePrice_roundtrip hres, hn]
          rfl
        · rw [validatePrice_roundtrip hres]
          rfl
        · rw [validatePrice_roundtrip hres]
          rfl
  have KLi : ∃ o,
      (match presentVal (((validateAndNormalize p).normalized_preferences).limit.map
        PyVal.int) with
        | some v => some (validateLimit v)
        | Option.none => some (FieldResult.valid (10 : ℤ) Option.none)) = o ∧
      fieldNorm o = (validateAndNormalize p).normalized_preferences.limit ∧
      fieldErr o = ([] : List ErrMsg) ∧ fieldOk o = true := by
    cases hcv : presentVal p.limit with
    | none =>
      have hn : (validateAndNormalize p).normalized_preferences.limit = some 10 := by
        show fieldNorm (match presentVal p.limit with
          | some v => some (validateLimit v)
          | Option.none => some (FieldResult.valid (10 : ℤ) Option.none)) = some 10
        rw [hcv]
        rfl
      have hten : validateLimit (.int 10) = .valid (10 : ℤ) Option.none := by decide
      refine ⟨some (FieldResult.valid (10 : ℤ) Option.none), ?_, by rw [hn]; rfl, rfl, rfl⟩
      rw [hn]
      show some (validateLimit (.int 10)) = some (FieldResult.valid (10 : ℤ) Option.none)
      rw [hten]
    | some v =>
      cases hres : validateLimit v with
      | invalid e =>
        exfalso
        rw [hcv] at hLi
        simp [fieldOk, hres] at hLi
      | valid m w =>
        have hn : (validateAndNormalize p).normalized_preferences.limit = some m := by
          show fieldNorm (match presentVal p.limit with
            | some v => some (validateLimit v)
            | Option.none => some (FieldResult.valid (10 : ℤ) Option.none)) = some m
          rw [hcv]
          show fieldNorm (some (validateLimit v)) = some m
          rw [hres]
          rfl
        refine ⟨some (validateLimit (.int m)), by rw [hn]; rfl, ?_, ?_, ?_⟩
        · rw [validateLimit_roundtrip hres, hn]
          rfl
        · rw [validateLimit_roundtrip hres]
          rfl
        · rw [validateLimit_roundtrip hres]
          rfl
  obtain ⟨oc, hoc, hnc, hec, hkc⟩ := KC
  obtain ⟨ol, hol, hnl, hel, hkl⟩ := KL
  obtain ⟨or', hor, hnr, her, hkr⟩ := KR
  obtain ⟨op, hop, hnp, hep, hkp⟩ := KP
  obtain ⟨oli, holi, hnli, heli, hkli⟩ := KLi
  refine ⟨?_, ?_, ?_⟩
  · apply NormPrefs.ext
    · show fieldNorm ((presentVal
        (((validateAndNormalize p).normalized_preferences).cuisine.map PyVal.str)).map
          validateCuisine) = _
      rw [hoc]
      exact hnc
    · show fieldNorm ((presentVal
        (((validateAndNormalize p).normalized_preferences).location.map PyVal.str)).map
          validateLocation) = _
      rw [hol]
      exact hnl
    · show fieldNorm ((presentVal
        (((validateAndNormalize p).normalized_preferences).min_rating.map PyVal.float)).map
          validateRating) = _
      rw [hor]
      exact hnr
    · show fieldNorm ((presentVal
        (((validateAndNormalize p).normalized_preferences).max_price.map PyVal.float)).map
          validatePrice) = _
      rw [hop]
      exact hnp
    · show fieldNorm (match presentVal
        (((validateAndNormalize p).normalized_preferences).limit.map PyVal.int) with
        | some v => some (validateLimit v)
        | Option.none => some (FieldResult.valid (10 : ℤ) Option.none)) = _
      rw [holi]
      exact hnli
  · show fieldErr ((presentVal
        (((validateAndNormalize p).normalized_preferences).cuisine.map PyVal.str)).map
          validateCuisine) ++
      fieldErr ((presentVal
        (((validateAndNormalize p).normalized_preferences).location.map PyVal.str)).map
          validateLocation) ++
      fieldErr ((presentVal
        (((validateAndNormalize p).normalized_preferences).min_rating.map PyVal.float)).map
          validateRating) ++
      fieldErr ((presentVal
        (((validateAndNormalize p).normalized_preferences).max_price.map PyVal.float)).map
          validatePrice) ++
      fieldErr (match presentVal
        (((validateAndNormalize p).normalized_preferences).limit.map PyVal.int) with
        | some v => some (validateLimit v)
        | Option.none => some (FieldResult.valid (10 : ℤ) Option.none)) = []
    rw [hoc, hol, hor, hop, holi, hec, hel, her, hep, heli]
    rfl
  · show (fieldOk ((presentVal
        (((validateAndNormalize p).normalized_preferences).cuisine.map PyVal.str)).map
          validateCuisine) &&
      fieldOk ((presentVal
        (((validateAndNormalize p).normalized_preferences).location.map PyVal.str)).map
          validateLocation) &&
      fieldOk ((presentVal
        (((validateAndNormalize p).normalized_preferences).min_rating.map PyVal.float)).map
          validateRating) &&
      fieldOk ((presentVal
        (((validateAndNormalize p).normalized_preferences).max_price.map PyVal.float)).map
          validatePrice) &&
      fieldOk (match presentVal
        (((validateAndNormalize p).normalized_preferences).limit.map PyVal.int) with
        | some v => some (validateLimit v)
        | Option.none => some (FieldResult.valid (10 : ℤ) Option.none))) = true
    rw [hoc, hol, hor, hop, holi, hkc, hkl, hkr, hkp, hkli]
    rfl

/-- Witness for C8 at a concrete input: every supplied field valid
(including a whitespace-padded mixed-case cuisine and a string-encoded
rating), so re-validation reproduces the normalized output exactly. -/
theorem C8_witness :
    (validateAndNormalize pAllValid).is_valid = true ∧
    ((validateAndNormalize
        (toRaw (validateAndNormalize pAllValid).normalized_preferences)).normalized_preferences =
      (validateAndNormalize pAllValid).normalized_preferences ∧
    (validateAndNormalize
        (toRaw (validateAndNormalize pAllValid).normalized_preferences)).errors = [] ∧
    (validateAndNormalize
        (toRaw (validateAndNormalize pAllValid).normalized_preferences)).is_valid = true) :=
  ⟨by decide, C8_validate_idempotent pAllValid (by decide)⟩

/-- Membership in a stable descending insertion is membership in the
inserted element or the list. -/
theorem mem_insertByDesc {α κ : Type} [LinearOrder κ] (key : α → κ) (a x : α)
    (l : List α) : x ∈ insertByDesc key a l ↔ x = a ∨ x ∈ l := by
  induction l with
  | nil => simp [insertByDesc]
  | cons b t ih =>
    rw [insertByDesc]
    split
    · simp only [List.mem_cons, ih]
      try tauto
    · simp only [List.mem_cons]
      try tauto

/-- The stable descending insertion preserves descending order. -/
theorem insertByDesc_pairwise {α κ : Type} [LinearOrder κ] (key : α → κ) (a : α)
    {l : List α} (hl : l.Pairwise (fun x y => key y ≤ key x)) :
    (insertByDesc key a l).Pairwise (fun x y => key y ≤ key x) := by
  induction l with
  | nil => simp [insertByDesc]
  | cons b t ih =>
    rw [List.pairwise_cons] at hl
    rw [insertByDesc]
    split
    · rename_i hab
      rw [List.pairwise_cons]
      refine ⟨?_, ih hl.2⟩
      intro x hx
      rcases (mem_insertByDesc key a x t).mp hx with rfl | hx'
      · exact le_of_lt hab
      · exact hl.1 x hx'
    · rename_i hab
      rw [List.pairwise_cons]
      refine ⟨?_, List.pairwise_cons.mpr hl⟩
      intro x hx
      rcases List.mem_cons.mp hx with rfl | hx'
      · exact le_of_not_lt hab
      · exact le_trans (hl.1 x hx') (le_of_not_lt hab)

/-- The model of Python's stable descending sort is sorted descending. -/
theorem sortByDesc_pairwise {α κ : Type} [LinearOrder κ] (key : α → κ) (l : List α) :
    (sortByDesc key l).Pairwise (fun x y => key y ≤ key x) := by
  induction l with
  | nil => simp [sortByDesc]
  | cons a t ih => exact insertByDesc_pairwise key a ih

/-- Sorting permutes: membership is preserved. -/
theorem mem_sortByDesc {α κ : Type} [LinearOrder κ] (key : α → κ) (x : α)
    (l : List α) : x ∈ sortByDesc key l ↔ x ∈ l := by
  induction l with
  | nil => simp [sortByDesc]
  | cons a t ih =>
    rw [sortByDesc, mem_insertByDesc, ih, List.mem_cons]

/-- The fallback selection loop returns a sublist of its input. -/
theorem llmFallbackLoop_sublist (limit : ℤ) :
    ∀ (l : List Restaurant) (seen : List (String × String)) (count : ℕ),
      (llmFallbackLoop limit seen count l).Sublist l := by
  intro l
  induction l with
  | nil => intro seen count; simp [llmFallbackLoop]
  | cons r rest ih =>
    intro seen count
    rw [llmFallbackLoop]
    split
    · exact (ih seen count).cons r
    · split
      · exact (List.nil_sublist rest).cons₂ r
      · exact (ih _ (count + 1)).cons₂ r

/-- The fallback selection loop never collects more than its remaining
budget. -/
theorem llmFallbackLoop_length (limit : ℤ) :
    ∀ (l : List Restaurant) (seen : List (String × String)) (count : ℕ),
      (count : ℤ) < limit →
      ((llmFallbackLoop limit seen count l).length : ℤ) ≤ limit - count := by
  intro l
  induction l with
  | nil => intro seen count h; simp [llmFallbackLoop]; omega
  | cons r rest ih =>
    intro seen count hcount
    rw [llmFallbackLoop]
    split
    · exact (ih seen count hcount).trans (by omega)
    · split
      · rename_i hstop
        simp only [List.length_cons, List.length_nil]
        omega
      · rename_i hstop
        have := ih ((strLower r.name, strLower r.location) :: seen) (count + 1)
          (by omega)
        simp only [List.length_cons]
        push_cast at this ⊢
        omega

/-- Every restaurant the fallback loop emits has a fresh
(name, location) identity, and the emitted identities are pairwise
distinct. -/
theorem llmFallbackLoop_nodup (limit : ℤ) :
    ∀ (l : List Restaurant) (seen : List (String × String)) (count : ℕ),
      (∀ r ∈ llmFallbackLoop limit seen count l,
        (strLower r.name, strLower r.location) ∉ seen) ∧
      ((llmFallbackLoop limit seen count l).map
        (fun r => (strLower r.name, strLower r.location))).Nodup := by
  intro l
  induction l with
  | nil => intro seen count; simp [llmFallbackLoop]
  | cons r rest ih =>
    intro seen count
    rw [llmFallbackLoop]
    split
    · exact ih seen count
    · rename_i hk
      split
      · refine ⟨?_, by simp⟩
        intro x hx
        rcases List.mem_cons.mp hx with rfl | hx'
        · exact hk
        · simp at hx'
      · obtain ⟨hfresh, hnd⟩ := ih ((strLower r.name, strLower r.location) :: seen)
          (count + 1)
        refine ⟨?_, ?_⟩
        · intro x hx
          rcases List.mem_cons.mp hx with rfl | hx'
          · exact hk
          · exact fun hin => hfresh x hx' (List.mem_cons_of_mem _ hin)
        · rw [List.map_cons, List.nodup_cons]
          refine ⟨?_, hnd⟩
          intro hin
          rw [List.mem_map] at hin
          obtain ⟨x, hx, hkey⟩ := hin
          exact hfresh x hx (by rw [hkey]; exact List.mem_cons_self _ _)

/-- C4 (amended): the LLM-service fallback maps the chosen restaurants to
(name, rating-derived explanation) pairs, where the chosen restaurants
are drawn in order from the stable rating-descending sort (equal
ratings keep their candidate order — there is no price tiebreak),
carry pairwise-distinct (name, location) identities, number at most
`limit`, and all come from the candidate list. -/
theorem C4_fallback_properties (restaurants : List Restaurant) (limit : ℤ)
    (hlim : 1 ≤ limit) :
    generateFallbackRecommendations restaurants limit =
      (llmFallbackChosen restaurants limit).map mkFallbackRec ∧
    (llmFallbackChosen restaurants limit).Sublist
      (sortByDesc (fun r => r.rating) restaurants) ∧
    ((llmFallbackChosen restaurants limit).map (fun r => r.rating)).Pairwise
      (fun a b => b ≤ a) ∧
    ((llmFallbackChosen restaurants limit).map
      (fun r => (strLower r.name, strLower r.location))).Nodup ∧
    ((llmFallbackChosen restaurants limit).length : ℤ) ≤ limit ∧
    ∀ r ∈ llmFallbackChosen restaurants limit, r ∈ restaurants := by
  refine ⟨rfl, ?_, ?_, ?_, ?_, ?_⟩ <;>
    rw [llmFallbackChosen] <;>
    split
  · simp
  · exact llmFallbackLoop_sublist limit _ [] 0
  · simp
  · have hsub := llmFallbackLoop_sublist limit
      (sortByDesc (fun r => r.rating) restaurants) [] 0
    have hsorted := sortByDesc_pairwise (fun r => r.rating) restaurants
    rw [List.pairwise_map]
    exact (hsorted.sublist hsub :)
  · simp
  · exact (llmFallbackLoop_nodup limit _ [] 0).2
  · simp
    omega
  · have := llmFallbackLoop_length limit
      (sortByDesc (fun r => r.rating) restaurants) [] 0 (by omega)
    simpa using this
  · simp
  · intro r hr
    have hsub := llmFallbackLoop_sublist limit
      (sortByDesc (fun r => r.rating) restaurants) [] 0
    exact (mem_sortByDesc _ r restaurants).mp (hsub.mem hr)

/-- Witness for C4 at a concrete input: two candidates tied on rating. -/
theorem C4_witness :
    (1 : ℤ) ≤ 2 ∧
    (generateFallbackRecommendations [rTieHigh, rTieLow] 2 =
      (llmFallbackChosen [rTieHigh, rTieLow] 2).map mkFallbackRec ∧
    (llmFallbackChosen [rTieHigh, rTieLow] 2).Sublist
      (sortByDesc (fun r => r.rating) [rTieHigh, rTieLow]) ∧
    ((llmFallbackChosen [rTieHigh, rTieLow] 2).map (fun r => r.rating)).Pairwise
      (fun a b => b ≤ a) ∧
    ((llmFallbackChosen [rTieHigh, rTieLow] 2).map
      (fun r => (strLower r.name, strLower r.location))).Nodup ∧
    ((llmFallbackChosen [rTieHigh, rTieLow] 2).length : ℤ) ≤ 2 ∧
    ∀ r ∈ llmFallbackChosen [rTieHigh, rTieLow] 2, r ∈ [rTieHigh, rTieLow]) :=
  ⟨by decide, C4_fallback_properties [rTieHigh, rTieLow] 2 (by decide)⟩

/-- C4 counterexample: on a rating tie the LLM-service fallback keeps the
candidate order (the pricier restaurant first), while the spec's
described ranking breaks the tie by price ascending — the two orders
differ at this input, so the fallback is not the spec's ranking. -/
theorem C4_counterexample :
    (generateFallbackRecommendations [rTieHigh, rTieLow] 2).map Rec.name =
      ["Pricey", "Cheap"] ∧
    (specFallback [rTieHigh, rTieLow] 2).map Rec.name = ["Cheap", "Pricey"] ∧
    generateFallbackRecommendations [rTieHigh, rTieLow] 2 ≠
      specFallback [rTieHigh, rTieLow] 2 := by
  have e1 : (generateFallbackRecommendations [rTieHigh, rTieLow] 2).map Rec.name =
      ["Pricey", "Cheap"] := by decide
  have e2 : (specFallback [rTieHigh, rTieLow] 2).map Rec.name =
      ["Cheap", "Pricey"] := by decide
  refine ⟨e1, e2, fun hcontra => ?_⟩
  rw [hcontra, e2] at e1
  exact absurd e1 (by decide)

/-- Witness for C3 at a concrete input: one candidate, three retries, a
first attempt that decodes to an empty recommendation list — the
generator returns the empty success immediately. -/
theorem C3_witness :
    ([rAlpha] : List Restaurant) ≠ [] ∧ (1 : ℕ) ≤ 3 ∧
    ((fun _ : ℕ => some emptyResp) 0 = some emptyResp) ∧
    parseResponse emptyResp = .ok [] ∧
    generateRecommendations [rAlpha] 3 (fun _ => some emptyResp) = .ok [] :=
  ⟨by decide, by decide, rfl, rfl,
    C3_zero_valid_is_silent_success [rAlpha] 3 (fun _ => some emptyResp) emptyResp []
      (by decide) (by decide) rfl rfl⟩

/-- Witness for C6 at a concrete input: empty preferences over one
candidate; the summary carries only the defaulted limit, optional
fields stay omitted. -/
theorem C6_witness :
    okFilters (getRecommendations {} [rBeta] false 0 (fun _ => Option.none)) =
      some { cuisine := Option.none, location := Option.none,
             min_rating := Option.none, max_price := Option.none,
             limit := some 10 } ∧
    (({ cuisine := Option.none, location := Option.none,
        min_rating := Option.none, max_price := Option.none,
        limit := some 10 } : NormPrefs) =
      getFilterSummary (validateAndNormalize {}).normalized_preferences ∧
    ({ cuisine := Option.none, location := Option.none,
       min_rating := Option.none, max_price := Option.none,
       limit := some 10 } : NormPrefs).limit.isSome = true ∧
    (presentVal ({} : RawPrefs).cuisine = Option.none →
      ({ cuisine := Option.none, location := Option.none,
         min_rating := Option.none, max_price := Option.none,
         limit := some 10 } : NormPrefs).cuisine = Option.none) ∧
    (presentVal ({} : RawPrefs).location = Option.none →
      ({ cuisine := Option.none, location := Option.none,
         min_rating := Option.none, max_price := Option.none,
         limit := some 10 } : NormPrefs).location = Option.none) ∧
    (presentVal ({} : RawPrefs).min_rating = Option.none →
      ({ cuisine := Option.none, location := Option.none,
         min_rating := Option.none, max_price := Option.none,
         limit := some 10 } : NormPrefs).min_rating = Option.none) ∧
    (presentVal ({} : RawPrefs).max_price = Option.none →
      ({ cuisine := Option.none, location := Option.none,
         min_rating := Option.none, max_price := Option.none,
         limit := some 10 } : NormPrefs).max_price = Option.none)) :=
  ⟨rfl, C6_filters_applied {} [rBeta] false 0 (fun _ => Option.none) _ rfl⟩

end RestRec
